import Mathlib

/-!
Verification development for the manifesto text-extraction comparison pipeline.

The Python sources are embedded shallowly over `List Char` / `String`:
pure text transformations become structural or fuel-bounded recursive
functions, regular-expression substitutions become dedicated scanners that
reproduce the leftmost, non-overlapping, greedy-with-backtracking semantics
of Python `re.sub` for the concrete patterns of the source, and the
floating-point ratios of the metrics code are modelled by exact rationals.

Modelling conventions, stated once here:
* Python `str.split()` tokenizes on whitespace runs; `\s`, `str.strip()`,
  `str.lower()`, `str.islower()` and `\w`/`\d`/`[a-zA-Z]` are modelled on
  the ASCII range (all texts evaluated in this file are ASCII; non-ASCII
  letters or digits do not occur in them).
* `unicodedata.normalize("NFKC", ·)` is modelled as the identity on ASCII
  (which is true of NFKC) together with the full-width punctuation folds
  relevant to this repository; other characters are left unchanged.
* Python `dict` preserves insertion order, so dictionaries become ordered
  association lists and `max(..., key=...)` becomes a fold keeping the
  first maximal element, exactly as CPython does.
-/

namespace Manifesto

/-- Whitespace characters recognised by Python `str.split()`, `str.strip()`
and `\s` (ASCII range). -/
def isPySpace (c : Char) : Bool :=
  c = ' ' || c = '\t' || c = '\n' || c = '\r' || c = '\x0b' || c = '\x0c'

/-- Word characters of the regex class `\w` (ASCII model: letters, digits,
underscore). -/
def isWordChar (c : Char) : Bool :=
  c.isAlpha || c.isDigit || c = '_'

/-- Case-insensitive character comparison (ASCII case folding, as used by
`re.IGNORECASE` on the ASCII patterns of the source). -/
def charEqCI (a b : Char) : Bool :=
  a.toLower = b.toLower

/-- Characters of Python `string.punctuation`. -/
def pyPunctChars : List Char :=
  ['!', '\"', '#', '$', '%', '&', '\'', '(', ')', '*', '+', ',', '-', '.', '/',
   ':', ';', '<', '=', '>', '?', '@', '[', '\\', ']', '^', '_',
   Char.ofNat 96, Char.ofNat 123, '|', Char.ofNat 125, '~']

/-- Membership in Python `string.punctuation`. -/
def isPyPunct (c : Char) : Bool :=
  pyPunctChars.contains c

/-- Python `str.strip()`: drop leading and trailing whitespace. -/
def pyStrip (s : List Char) : List Char :=
  ((s.dropWhile isPySpace).reverse.dropWhile isPySpace).reverse

/-- Python `str.lower()` (ASCII model). -/
def pyLower (s : List Char) : List Char :=
  s.map Char.toLower

/-- Python `text.split(chr(10))`: split at every newline, keeping empty
pieces. -/
def splitNL : List Char → List (List Char)
  | [] => [[]]
  | c :: rest =>
    if c = '\n' then [] :: splitNL rest
    else
      match splitNL rest with
      | h :: t => (c :: h) :: t
      | [] => [[c]]

/-- Join lines with newlines, the inverse-direction companion of
`splitNL`. -/
def joinNL (ls : List (List Char)) : List Char :=
  List.intercalate ['\n'] ls

/-- Python `str.split()` with no argument: whitespace-run tokenizer that
discards empty tokens. -/
def pySplit : List Char → List (List Char)
  | [] => []
  | c :: rest =>
    if isPySpace c then pySplit rest
    else
      match rest, pySplit rest with
      | [], _ => [[c]]
      | _, [] => [[c]]
      | r :: _, w :: ws => if isPySpace r then [c] :: w :: ws else (c :: w) :: ws

/-- Does the second list start with the first, comparing characters with
`eq`? -/
def startsWithBy (eq : Char → Char → Bool) : List Char → List Char → Bool
  | [], _ => true
  | _ :: _, [] => false
  | a :: as, b :: bs => eq a b && startsWithBy eq as bs

/-- Python `str.replace(old, new)` for non-empty `old`: leftmost,
non-overlapping replacement, fuel-bounded by the input length (each step
consumes at least one character). -/
def pyReplaceAux (old new : List Char) : Nat → List Char → List Char
  | 0, s => s
  | fuel + 1, s =>
    match s with
    | [] => []
    | c :: rest =>
      if startsWithBy (· = ·) old s && !old.isEmpty then
        new ++ pyReplaceAux old new fuel (s.drop old.length)
      else
        c :: pyReplaceAux old new fuel rest

/-- Python `str.replace(old, new)`. -/
def pyReplace (old new s : List Char) : List Char :=
  pyReplaceAux old new s.length s

/-!
## Pattern engine

The noise-removal and spacing regexes of the source are sequences of
character classes with repetition bounds (literals being one-element
classes).  `matchItems` reproduces greedy matching with backtracking,
`matchEnd` the same with an end-of-string anchor, `regexSub` the scanning
substitution of `re.sub` with a constant replacement.
-/

/-- One regex item: a character class `p` repeated at least `mn` times and,
when `mx = some k`, at most `k` times (greedy). -/
structure PatItem where
  p : Char → Bool
  mn : Nat
  mx : Option Nat

/-- Length of the greedy run of `p` at the head of the input, capped by the
optional bound. -/
def runLen (p : Char → Bool) : List Char → Option Nat → Nat
  | [], _ => 0
  | c :: t, mx =>
    match mx with
    | some 0 => 0
    | some (k + 1) => if p c then runLen p t (some k) + 1 else 0
    | none => if p c then runLen p t none + 1 else 0

/-- Try `f` on `n, n-1, ..., 0` and return the first `some`.  Used to give
each greedy item its backtracking behaviour. -/
def firstSome {α : Type} (f : Nat → Option α) : Nat → Option α
  | 0 => f 0
  | n + 1 => (f (n + 1)).orElse fun _ => firstSome f n

/-- Does `f` succeed for some `n' ≤ n`? -/
def existsLe (f : Nat → Bool) : Nat → Bool
  | 0 => f 0
  | n + 1 => f (n + 1) || existsLe f n

/-- Match the item sequence at the head of `s`, returning the rest of the
input after the (greedily chosen, backtracking) match. -/
def matchItems : List PatItem → List Char → Option (List Char)
  | [], s => some s
  | it :: t, s =>
    let m := runLen it.p s it.mx
    if m < it.mn then none
    else firstSome (fun n => if n < it.mn then none else matchItems t (s.drop n)) m

/-- Match the item sequence against the whole of `s` (the `re.match`
pattern anchored by a final `$` on a string without newlines). -/
def matchEnd : List PatItem → List Char → Bool
  | [], s => s.isEmpty
  | it :: t, s =>
    let m := runLen it.p s it.mx
    if m < it.mn then false
    else existsLe (fun n => if n < it.mn then false else matchEnd t (s.drop n)) m

/-- Scanner of `re.sub(pattern, repl, s)` for a constant replacement:
leftmost match, continue after the consumed text, never rescanning the
replacement.  Every pattern passed to it matches at least one character, so
the fuel `s.length` suffices; a (for our patterns unreachable) zero-width
match falls through to plain character emission. -/
def regexSubAux (pat : List PatItem) (repl : List Char) : Nat → List Char → List Char
  | 0, s => s
  | fuel + 1, s =>
    match s with
    | [] => []
    | c :: rest =>
      match matchItems pat s with
      | some r =>
        if r.length < s.length then repl ++ regexSubAux pat repl fuel r
        else c :: regexSubAux pat repl fuel rest
      | none => c :: regexSubAux pat repl fuel rest

/-- Substitution by a constant replacement string. -/
def regexSub (pat : List PatItem) (repl : List Char) (s : List Char) : List Char :=
  regexSubAux pat repl s.length s

/-- Case-sensitive literal as a pattern. -/
def litCS (str : String) : List PatItem :=
  str.data.map fun c => ⟨fun x => x = c, 1, some 1⟩

/-- Case-insensitive literal as a pattern. -/
def litCI (str : String) : List PatItem :=
  str.data.map fun c => ⟨fun x => charEqCI x c, 1, some 1⟩

/-- Single repeated character class as a pattern. -/
def clsP (p : Char → Bool) (mn : Nat) (mx : Option Nat) : List PatItem :=
  [⟨p, mn, mx⟩]

/-!
## Word-boundary scanners

The substitutions of the source whose patterns are anchored by `\b` need
the character preceding the scan position; these scanners carry it along.
All keys handled here begin and end with word characters, so the two
boundaries reduce to "previous character absent or not a word character"
and "next character absent or not a word character".
-/

/-- Does the previous character (none at the start of the string) allow a
word boundary before a word character? -/
def noWordBefore : Option Char → Bool
  | none => true
  | some c => !isWordChar c

/-- Does a word boundary follow, i.e. is the next character absent or not a
word character? -/
def boundaryAfter : List Char → Bool
  | [] => true
  | c :: _ => !isWordChar c

/-- Scanner of `re.sub(r"\b<key>\b", repl, s)` for a literal `key` that
begins and ends with word characters (`ci` selects `re.IGNORECASE`).  After
a match, scanning resumes past the matched text of the original string, the
boundary state being its last character. -/
def subWordLitAux (ci : Bool) (key repl : List Char) :
    Nat → Option Char → List Char → List Char
  | 0, _, s => s
  | fuel + 1, prev, s =>
    match s with
    | [] => []
    | c :: rest =>
      let eq := if ci then charEqCI else fun a b => a = b
      if noWordBefore prev && startsWithBy eq key s && !key.isEmpty &&
          boundaryAfter (s.drop key.length) then
        repl ++ subWordLitAux ci key repl fuel ((s.take key.length).getLast? ) (s.drop key.length)
      else
        c :: subWordLitAux ci key repl fuel (some c) rest

/-- Word-boundary-anchored literal substitution. -/
def subWordLit (ci : Bool) (key repl : String) (s : List Char) : List Char :=
  subWordLitAux ci key.data repl.data s.length none s

/-- Head test for the `\. l\b` branch of the sentence-start fix: when the
input starts with a period, a space and an l followed by a word boundary,
return the input after the l. -/
def dotSpaceL (s : List Char) : Option (List Char) :=
  match s with
  | '.' :: ' ' :: 'l' :: rest => if boundaryAfter rest then some rest else none
  | _ => none

/-- Scanner of `re.sub(r"(^|\. )l\b", r"\1I", s)`: the body after consuming
a possible match at the very start (the `^` branch fires only there because
the pattern is compiled without `re.MULTILINE`).  On a match, the consumed
`. l` is re-emitted with the l capitalized and scanning resumes after it;
otherwise one character is emitted. -/
def subDotLAux : Nat → List Char → List Char
  | 0, s => s
  | fuel + 1, s =>
    match s with
    | [] => []
    | c :: rest =>
      match dotSpaceL (c :: rest) with
      | some rest2 => '.' :: ' ' :: 'I' :: subDotLAux fuel rest2
      | none => c :: subDotLAux fuel rest

/-- Substitution fixing a lone lowercase letter l at a sentence start: the
`^` branch can only fire at the head of the string, after which `subDotLAux`
handles the sentence-interior matches. -/
def subStartDotL (s : List Char) : List Char :=
  match s with
  | [] => []
  | c :: rest =>
    if c = 'l' && boundaryAfter rest then 'I' :: subDotLAux rest.length rest
    else subDotLAux (c :: rest).length (c :: rest)

/-- Attempt of the pattern `\b(c)\s+(c)\s+(c)\b` (class `p`) at the head of
the input; `\s+` is greedy and the following single class character is
disjoint from whitespace, so the match is deterministic.  Returns the three
captured characters and the rest of the input. -/
def tripleMatch (p : Char → Bool) (s : List Char) : Option (Char × Char × Char × List Char) :=
  match s with
  | [] => none
  | c1 :: rest =>
    if p c1 then
      let w1 := rest.takeWhile isPySpace
      if w1.length = 0 then none
      else
        match rest.drop w1.length with
        | [] => none
        | c2 :: rest2 =>
          if p c2 then
            let w2 := rest2.takeWhile isPySpace
            if w2.length = 0 then none
            else
              match rest2.drop w2.length with
              | [] => none
              | c3 :: rest3 =>
                if p c3 && boundaryAfter rest3 then some (c1, c2, c3, rest3) else none
          else none
    else none

/-- Scanner of `re.sub` for the three-fragment rejoining patterns
`\b(c)\s+(c)\s+(c)\b → \1\2\3`. -/
def subTripleAux (p : Char → Bool) : Nat → Option Char → List Char → List Char
  | 0, _, s => s
  | fuel + 1, prev, s =>
    match s with
    | [] => []
    | c :: rest =>
      if noWordBefore prev then
        match tripleMatch p s with
        | some (c1, c2, c3, rest3) => c1 :: c2 :: c3 :: subTripleAux p fuel (some c3) rest3
        | none => c :: subTripleAux p fuel (some c) rest
      else c :: subTripleAux p fuel (some c) rest

/-- Three-fragment rejoining substitution. -/
def subTripleCls (p : Char → Bool) (s : List Char) : List Char :=
  subTripleAux p s.length none s

/-- Attempt of the pattern `\b(c)\s+(c)\b` at the head of the input. -/
def pairMatch (p : Char → Bool) (s : List Char) : Option (Char × Char × List Char) :=
  match s with
  | [] => none
  | c1 :: rest =>
    if p c1 then
      let w1 := rest.takeWhile isPySpace
      if w1.length = 0 then none
      else
        match rest.drop w1.length with
        | [] => none
        | c2 :: rest2 =>
          if p c2 && boundaryAfter rest2 then some (c1, c2, rest2) else none
    else none

/-- Scanner of `re.sub` for the two-digit rejoining pattern
`\b(\d)\s+(\d)\b → \1\2`. -/
def subPairAux (p : Char → Bool) : Nat → Option Char → List Char → List Char
  | 0, _, s => s
  | fuel + 1, prev, s =>
    match s with
    | [] => []
    | c :: rest =>
      if noWordBefore prev then
        match pairMatch p s with
        | some (c1, c2, rest2) => c1 :: c2 :: subPairAux p fuel (some c2) rest2
        | none => c :: subPairAux p fuel (some c) rest
      else c :: subPairAux p fuel (some c) rest

/-- Two-fragment rejoining substitution. -/
def subPairCls (p : Char → Bool) (s : List Char) : List Char :=
  subPairAux p s.length none s

/-!
## Repair pipeline (`TextCleaner` of `7_archive/b_text_cleaning.py`)

Each method of the class becomes one function below; `cleanText` is their
composition in the order of `clean_text`.
-/

/-- NFKC normalization per character, modelled as explained in the header:
identity on ASCII, the full-width punctuation of this repository folded to
ASCII, all other characters unchanged. -/
def nfkcChar (c : Char) : Char :=
  if c = '！' then '!'
  else if c = '？' then '?'
  else if c = '，' then ','
  else if c = '。' then '.'
  else c

/-- Zero-width characters removed by `normalize_unicode`: zero-width space,
zero-width non-joiner, zero-width joiner, zero-width no-break space, word
joiner. -/
def invisibleChars : List Char :=
  [Char.ofNat 0x200b, Char.ofNat 0x200c, Char.ofNat 0x200d,
   Char.ofNat 0xfeff, Char.ofNat 0x2060]

/-- Unicode general category C, modelled on the ranges relevant here: the
C0 controls, DEL, the C1 controls, and the zero-width format characters. -/
def isCatC (c : Char) : Bool :=
  c.val < 32 || c.val = 127 || (128 ≤ c.val && c.val ≤ 159) || invisibleChars.contains c

/-- Stage `normalize_unicode`: NFKC fold, removal of zero-width characters,
and removal of control characters other than newline and tab. -/
def normalizeUnicode (s : List Char) : List Char :=
  let t := s.map nfkcChar
  let t := invisibleChars.foldl (fun acc ch => pyReplace [ch] [] acc) t
  t.filter fun c => c = '\n' || c = '\t' || !isCatC c

/-- Replacement table `ocr_char_replacements`, in dictionary insertion
order.  The two "smart quote" entries of the source are written with plain
ASCII quotes, so the first of them parses as a triple-quoted string: its
runtime key is the literal text between the two `'''` tokens (a colon,
a space, a double quote, a quote, a double quote, a comma, two spaces, the
hash comment text, a newline and twelve spaces of indentation), and the
second collapses to the identity entry for the double quote. -/
def ocrCharReplacements : List (List Char × List Char) :=
  [(['|'], ['I']),
   (['0'], ['O']),
   (['1'], ['l']),
   (['！'], ['!']),
   (['？'], ['?']),
   (['，'], [',']),
   (['。'], ['.']),
   ([':', ' ', '\"', '\'', '\"', ',', ' ', ' ', '#', ' ', 'S', 'm', 'a', 'r', 't',
     ' ', 'q', 'u', 'o', 't', 'e', 's', '\n', ' ', ' ', ' ', ' ', ' ', ' ', ' ',
     ' ', ' ', ' ', ' ', ' '], ['\'']),
   (['\"'], ['\"']),
   (['–'], ['-']),
   (['—'], ['-'])]

/-- Stage `fix_ocr_character_errors`: the table, the digit-for-letter word
fixes, the sentence-start fix, and the two-letter word fixes, in source
order.  The four `\b1ike\b`-style patterns are retained although the table
has already removed every ASCII 1. -/
def fixOcrCharacterErrors (s : List Char) : List Char :=
  let t := ocrCharReplacements.foldl (fun acc wr => pyReplace wr.1 wr.2 acc) s
  let t := subWordLit true "1ike" "like" t
  let t := subWordLit true "1ive" "live" t
  let t := subWordLit true "1ater" "later" t
  let t := subWordLit true "1ess" "less" t
  let t := subStartDotL t
  let t := subWordLit false "ls" "is" t
  let t := subWordLit false "lf" "If" t
  let t := subWordLit false "ln" "In" t
  let t := subWordLit false "lt" "It" t
  let t := subWordLit false "ls" "is" t
  t

/-- Bullet glyph class of the first noise pattern. -/
def bulletChars : List Char :=
  ['•', '·', '∙', '◦', '▪', '▫', '■', '□', '▲', '▼', '►', '◄']

/-- Character class `[a-zA-Z0-9.-]` of the URL patterns. -/
def isUrlBody (c : Char) : Bool :=
  c.isAlpha || c.isDigit || c = '.' || c = '-'

/-- Character class `[/\w.-]` of the full-URL pattern tail. -/
def isUrlTail (c : Char) : Bool :=
  c = '/' || isWordChar c || c = '.' || c = '-'

/-- Noise patterns of `noise_patterns`, in source order, all applied with
`re.IGNORECASE` and an empty replacement. -/
def noisePatterns : List (List PatItem) :=
  [clsP bulletChars.contains 1 (some 1),
   litCI "www." ++ clsP isUrlBody 1 none ++ litCS "." ++ clsP Char.isAlpha 2 none,
   litCI "http" ++ clsP (fun c => charEqCI c 's') 0 (some 1) ++ litCI "://" ++
     clsP isUrlBody 1 none ++ litCS "." ++ clsP Char.isAlpha 2 none ++
     clsP isUrlTail 0 none,
   litCS "@" ++ clsP isPySpace 0 none ++ clsP (fun c => c = '\\') 0 (some 1) ++
     clsP Char.isAlpha 1 none ++ clsP isPySpace 0 none ++ litCI "leave",
   litCI "HM Government",
   litCI "EUReferendum.gov.uk",
   litCI "voteleavetakecontrol.org",
   clsP (fun c => c = '$') 1 none ++ clsP (fun c => c = '_') 1 none ++
     clsP (fun c => c = '$') 0 none,
   clsP (fun c => c = '—') 1 none,
   clsP (fun c => c = '=') 1 none,
   clsP (fun c => isPySpace c && c ≠ '\n') 5 none,
   clsP (fun c => c = '.') 4 none,
   clsP (fun c => c = '-') 4 none,
   clsP (fun c => c = '_') 4 none]

/-- Stage `remove_noise_patterns`. -/
def removeNoisePatterns (s : List Char) : List Char :=
  noisePatterns.foldl (fun acc pat => regexSub pat [] acc) s

/-- Fragmented-term dictionary `term_fixes`, in insertion order. -/
def termFixes : List (String × String) :=
  [("E U", "EU"), ("U K", "UK"), ("N H S", "NHS"), ("G D P", "GDP"),
   ("V A T", "VAT"), ("M P", "MP"), ("U N", "UN"), ("N A T O", "NATO"),
   ("E E A", "EEA"), ("U S", "US"), ("ls", "is"), ("lf", "If"), ("ln", "In")]

/-- Stage `fix_fragmented_text`: the case-insensitive word-boundary term
fixes, then letter-triple rejoining, then digit-triple and digit-pair
rejoining. -/
def fixFragmentedText (s : List Char) : List Char :=
  let t := termFixes.foldl (fun acc kv => subWordLit true kv.1 kv.2 acc) s
  let t := subTripleCls Char.isAlpha t
  let t := subTripleCls Char.isDigit t
  let t := subPairCls Char.isDigit t
  t

/-- Punctuation class `[.,;:!?]` of `fix_punctuation_spacing`. -/
def isSpacingPunct (c : Char) : Bool :=
  c = '.' || c = ',' || c = ';' || c = ':' || c = '!' || c = '?'

/-- Scanner of `re.sub(r"\s+([.,;:!?])", r"\1", s)`: a whitespace run
followed by one of the punctuation characters loses the run. -/
def delSpaceBeforePunctAux : Nat → List Char → List Char
  | 0, s => s
  | fuel + 1, s =>
    match s with
    | [] => []
    | c :: rest =>
      if isPySpace c then
        let w := s.takeWhile isPySpace
        match s.drop w.length with
        | d :: r2 =>
          if isSpacingPunct d then d :: delSpaceBeforePunctAux fuel r2
          else c :: delSpaceBeforePunctAux fuel rest
        | [] => c :: delSpaceBeforePunctAux fuel rest
      else c :: delSpaceBeforePunctAux fuel rest

/-- Removal of whitespace before terminal punctuation. -/
def delSpaceBeforePunct (s : List Char) : List Char :=
  delSpaceBeforePunctAux s.length s

/-- Scanner of `re.sub(r"([.,;:!?])(?=[A-Za-z])", r"\1 ", s)`: the letter is
a lookahead, so scanning resumes at it. -/
def addSpaceAfterPunctAux : Nat → List Char → List Char
  | 0, s => s
  | fuel + 1, s =>
    match s with
    | [] => []
    | c :: rest =>
      if isSpacingPunct c then
        match rest with
        | d :: _ =>
          if d.isAlpha then c :: ' ' :: addSpaceAfterPunctAux fuel rest
          else c :: addSpaceAfterPunctAux fuel rest
        | [] => [c]
      else c :: addSpaceAfterPunctAux fuel rest

/-- Insertion of a space after punctuation directly followed by a letter. -/
def addSpaceAfterPunct (s : List Char) : List Char :=
  addSpaceAfterPunctAux s.length s

/-- Attempt of `(\d)\s+\.\s+(\d)` at the head of the input (both whitespace
runs non-empty, deterministic as the runs are maximal). -/
def decimalMatch (s : List Char) : Option (Char × Char × List Char) :=
  match s with
  | [] => none
  | d1 :: rest =>
    if d1.isDigit then
      let w1 := rest.takeWhile isPySpace
      if w1.length = 0 then none
      else
        match rest.drop w1.length with
        | '.' :: rest2 =>
          let w2 := rest2.takeWhile isPySpace
          if w2.length = 0 then none
          else
            match rest2.drop w2.length with
            | d2 :: rest3 => if d2.isDigit then some (d1, d2, rest3) else none
            | [] => none
        | _ => none
    else none

/-- Scanner of `re.sub(r"(\d)\s+\.\s+(\d)", r"\1.\2", s)`. -/
def fixDecimalAux : Nat → List Char → List Char
  | 0, s => s
  | fuel + 1, s =>
    match s with
    | [] => []
    | c :: rest =>
      match decimalMatch s with
      | some (d1, d2, rest3) => d1 :: '.' :: d2 :: fixDecimalAux fuel rest3
      | none => c :: fixDecimalAux fuel rest

/-- Rejoining of decimal numbers split around their point. -/
def fixDecimalSpacing (s : List Char) : List Char :=
  fixDecimalAux s.length s

/-- Stage `fix_punctuation_spacing`, in source order. -/
def fixPunctuationSpacing (s : List Char) : List Char :=
  let t := delSpaceBeforePunct s
  let t := addSpaceAfterPunct t
  let t := fixDecimalSpacing t
  let t := regexSub (clsP isPySpace 1 none ++ litCS "\"") [' ', '\"'] t
  let t := regexSub (litCS "\"" ++ clsP isPySpace 1 none) ['\"', ' '] t
  let t := regexSub (clsP isPySpace 1 none ++ litCS "\'") [' ', '\''] t
  let t := regexSub (litCS "\'" ++ clsP isPySpace 1 none) ['\'', ' '] t
  t

/-- Allow-list of meaningful two-letter tokens kept by
`remove_isolated_characters`. -/
def allowShort : List (List Char) :=
  [['U', 'K'], ['E', 'U'], ['U', 'S'], ['U', 'N'], ['M', 'P'], ['P', 'M']]

/-- Python `str.isdigit()` (ASCII model): non-empty and all digits. -/
def isAllDigits (l : List Char) : Bool :=
  !l.isEmpty && l.all Char.isDigit

/-- Anchored pattern `^-?\s*\d{1,3}\s*-?$` recognising bare page numbers. -/
def pageNumPat : List PatItem :=
  clsP (fun c => c = '-') 0 (some 1) ++ clsP isPySpace 0 none ++
    clsP Char.isDigit 1 (some 3) ++ clsP isPySpace 0 none ++
    clsP (fun c => c = '-') 0 (some 1)

/-- Per-line filter of `remove_isolated_characters`; the kept value is the
stripped line, exactly as the source reassigns `line = line.strip()`.  The
punctuation-ratio comparison `count/len > 0.7` is decided exactly as
`10*count > 7*len`. -/
def isolatedLineKeep (l : List Char) : Option (List Char) :=
  let t := pyStrip l
  if t.length ≤ 2 && !isAllDigits t && !allowShort.contains t then none
  else if t.length > 0 && 10 * t.countP isPyPunct > 7 * t.length then none
  else if matchEnd pageNumPat t then none
  else some t

/-- Stage `remove_isolated_characters`. -/
def removeIsolatedCharacters (s : List Char) : List Char :=
  joinNL ((splitNL s).filterMap isolatedLineKeep)

/-- Attempt of `(\w+)-\s*\n\s*(\w+)` at the head of the input: a word run,
a hyphen, a whitespace run containing at least one newline (this is what
`\s*\n\s*` matches after backtracking, the run being maximal because word
characters are not whitespace), and a second word run. -/
def hyphenBreakMatch (s : List Char) : Option (List Char × List Char × List Char) :=
  let w1 := s.takeWhile isWordChar
  if w1.length = 0 then none
  else
    match s.drop w1.length with
    | '-' :: r1 =>
      let ws := r1.takeWhile isPySpace
      if ws.contains '\n' then
        let r2 := r1.drop ws.length
        let w2 := r2.takeWhile isWordChar
        if w2.length = 0 then none else some (w1, w2, r2.drop w2.length)
      else none
    | _ => none

/-- Scanner of `re.sub(r"(\w+)-\s*\n\s*(\w+)", r"\1\2", s)`. -/
def hyphenBreakAux : Nat → List Char → List Char
  | 0, s => s
  | fuel + 1, s =>
    match s with
    | [] => []
    | c :: rest =>
      match hyphenBreakMatch s with
      | some (w1, w2, r) => w1 ++ w2 ++ hyphenBreakAux fuel r
      | none => c :: hyphenBreakAux fuel rest

/-- Attempt of `(\w+)-(\w+)` at the head of the input. -/
def wordHyphenMatch (s : List Char) : Option (List Char × List Char × List Char) :=
  let w1 := s.takeWhile isWordChar
  if w1.length = 0 then none
  else
    match s.drop w1.length with
    | '-' :: r1 =>
      let w2 := r1.takeWhile isWordChar
      if w2.length = 0 then none else some (w1, w2, r1.drop w2.length)
    | _ => none

/-- Scanner of the lambda substitution on `(\w+)-(\w+)`: the hyphen is kept
only when both sides exceed two characters; in either case scanning resumes
after the consumed match. -/
def shortHyphenAux : Nat → List Char → List Char
  | 0, s => s
  | fuel + 1, s =>
    match s with
    | [] => []
    | c :: rest =>
      match wordHyphenMatch s with
      | some (w1, w2, r) =>
        if w1.length > 2 && w2.length > 2 then
          w1 ++ '-' :: w2 ++ shortHyphenAux fuel r
        else
          w1 ++ w2 ++ shortHyphenAux fuel r
      | none => c :: shortHyphenAux fuel rest

/-- Stage `fix_word_breaks`: line-end hyphenation repair, then the
short-fragment hyphen collapse. -/
def fixWordBreaks (s : List Char) : List Char :=
  shortHyphenAux (hyphenBreakAux s.length s).length (hyphenBreakAux s.length s)

/-- Full-line match of `^[\s._-]*$` (degenerate separator lines, including
the empty line). -/
def isDegenLine (l : List Char) : Bool :=
  l.all fun c => isPySpace c || c = '.' || c = '_' || c = '-'

/-- Stage `remove_excessive_whitespace_lines`: drop separator lines and
lines longer than five characters whose stripped alphabet has at most two
distinct characters. -/
def removeExcessiveWhitespaceLines (s : List Char) : List Char :=
  joinNL ((splitNL s).filter fun l =>
    !isDegenLine l && !(l.length > 5 && (pyStrip l).dedup.length ≤ 2))

/-- Normalized form of a line used by `remove_header_footer_repetition`:
trimmed and lower-cased. -/
def normLine (l : List Char) : List Char :=
  pyLower (pyStrip l)

/-- Lookup `line_counts.get(x, 0)` of `remove_header_footer_repetition`:
the dictionary counts the normalized occurrences of each substantial
(longer than ten characters) line, and short lines are absent from it. -/
def lineCountsGet (lines : List (List Char)) (x : List Char) : Nat :=
  if 10 < x.length then (lines.map normLine).count x else 0

/-- Filtering loop of `remove_header_footer_repetition`, carrying the
`seen_repetitive` set. -/
def hfAux (cnt : List Char → Nat) : List (List Char) → List (List Char) → List (List Char)
  | _, [] => []
  | seen, l :: rest =>
    let c := normLine l
    if 2 < cnt c && !seen.contains c && 10 < c.length then hfAux cnt (c :: seen) rest
    else if seen.contains c then hfAux cnt seen rest
    else l :: hfAux cnt seen rest

/-- Stage `remove_header_footer_repetition`. -/
def removeHeaderFooterRepetition (s : List Char) : List Char :=
  let lines := splitNL s
  joinNL (hfAux (lineCountsGet lines) [] lines)

/-- Python `text.split(sep)` for the two-newline separator: non-overlapping
leftmost occurrences. -/
def splitNNAux : Nat → List Char → List Char → List (List Char)
  | 0, acc, s => [acc.reverse ++ s]
  | fuel + 1, acc, s =>
    match s with
    | '\n' :: '\n' :: rest => acc.reverse :: splitNNAux fuel [] rest
    | c :: rest => splitNNAux fuel (c :: acc) rest
    | [] => [acc.reverse]

/-- Paragraph split of `fix_broken_sentences`. -/
def splitNN (s : List Char) : List (List Char) :=
  splitNNAux s.length [] s

/-- Terminal punctuation test `current_sentence[-1] in ".!?:"`. -/
def endsSentencePunct (l : List Char) : Bool :=
  match l.getLast? with
  | some c => c = '.' || c = '!' || c = '?' || c = ':'
  | none => false

/-- Python `str.islower()` on the first character (ASCII model). -/
def startsLower (l : List Char) : Bool :=
  match l with
  | c :: _ => c.isLower
  | [] => false

/-- Line loop of `fix_broken_sentences` within one paragraph, carrying the
accumulated lines (reversed) and the current sentence. -/
def fbsGo : List (List Char) → List (List Char) → List Char → List (List Char)
  | [], fixedRev, cur => (if cur.isEmpty then fixedRev else cur :: fixedRev).reverse
  | l :: rest, fixedRev, cur =>
    let t := pyStrip l
    if t.isEmpty then fbsGo rest fixedRev cur
    else if !cur.isEmpty && !endsSentencePunct cur && startsLower t then
      fbsGo rest fixedRev (cur ++ ' ' :: t)
    else fbsGo rest (if cur.isEmpty then fixedRev else cur :: fixedRev) t

/-- Stage `fix_broken_sentences`. -/
def fixBrokenSentences (s : List Char) : List Char :=
  let paras := splitNN s
  let fixedParas := paras.filterMap fun p =>
    if (pyStrip p).isEmpty then none
    else
      let fl := fbsGo (splitNL p) [] []
      if fl.isEmpty then none else some (joinNL fl)
  List.intercalate ['\n', '\n'] fixedParas

/-- Scanner of `re.sub(r"\n\s*\n\s*\n+", chr(10) ++ chr(10), s)`: a
whitespace run starting with a newline and containing at least three
newlines is replaced by two newlines; by greedy backtracking the match ends
directly after the last newline of the run, so trailing non-newline
whitespace of the run survives. -/
def collapseBlankRunsAux : Nat → List Char → List Char
  | 0, s => s
  | fuel + 1, s =>
    match s with
    | [] => []
    | c :: rest =>
      if c = '\n' then
        let w := s.takeWhile isPySpace
        if 3 ≤ w.count '\n' then
          let endIdx := w.length - (w.reverse.takeWhile (fun d => d ≠ '\n')).length
          '\n' :: '\n' :: collapseBlankRunsAux fuel (s.drop endIdx)
        else c :: collapseBlankRunsAux fuel rest
      else c :: collapseBlankRunsAux fuel rest

/-- Collapse of triple-newline (or denser) paragraph separations. -/
def collapseBlankRuns (s : List Char) : List Char :=
  collapseBlankRunsAux s.length s

/-- Terminal punctuation test of `normalize_spacing`, whose set also
includes semicolon and both quote characters. -/
def endsJoinPunct (l : List Char) : Bool :=
  match l.getLast? with
  | some c => c = '.' || c = '!' || c = '?' || c = ':' || c = ';' || c = '\"' || c = '\''
  | none => false

/-- Line loop of `normalize_spacing`: each line is stripped; a non-final
line not ending in joining punctuation whose successor (in the original
line list) starts with a lowercase letter receives a trailing space.  The
newline between them is kept, exactly as in the source. -/
def nsLines : List (List Char) → List (List Char)
  | [] => []
  | l :: rest =>
    let t := pyStrip l
    if t.isEmpty then [] :: nsLines rest
    else
      match rest with
      | [] => [t]
      | nxt :: _ =>
        let nt := pyStrip nxt
        if !endsJoinPunct t && !nt.isEmpty && startsLower nt then
          (t ++ [' ']) :: nsLines rest
        else t :: nsLines rest

/-- Stage `normalize_spacing`: space-run collapse, tab replacement,
blank-run collapse, then the line loop. -/
def normalizeSpacing (s : List Char) : List Char :=
  let t := regexSub (clsP (fun c => c = ' ') 1 none) [' '] s
  let t := t.map fun c => if c = '\t' then ' ' else c
  let t := collapseBlankRuns t
  joinNL (nsLines (splitNL t))

/-- Full repair pipeline `clean_text`: the eleven stages in source order,
the final blank-run collapse, and the final strip. -/
def cleanText (s : String) : String :=
  let t := normalizeUnicode s.data
  let t := fixOcrCharacterErrors t
  let t := removeNoisePatterns t
  let t := fixFragmentedText t
  let t := fixPunctuationSpacing t
  let t := removeIsolatedCharacters t
  let t := fixWordBreaks t
  let t := removeExcessiveWhitespaceLines t
  let t := removeHeaderFooterRepetition t
  let t := fixBrokenSentences t
  let t := normalizeSpacing t
  let t := collapseBlankRuns t
  String.mk (pyStrip t)

/-!
## Extraction methods and identity grouping (`text_comparison.py`)
-/

/-- Extraction methods of the comparison scripts.  The archived comparison
script normalizes the method tag to a short name (`pymupdf`, `tesseract`);
the same three-valued type stands for both spellings. -/
inductive Method where
  | from_csv
  | pymupdf_extraction
  | tesseract_extraction
deriving DecidableEq

/-- Fixed method order `['from_csv', 'pymupdf_extraction',
'tesseract_extraction']` used by `compare_folder` and
`calculate_recommendation`. -/
def methodOrder : List Method :=
  [Method.from_csv, Method.pymupdf_extraction, Method.tesseract_extraction]

/-- Position of a method in the fixed priority list. -/
def priorityIdx : Method → Nat
  | Method.from_csv => 0
  | Method.pymupdf_extraction => 1
  | Method.tesseract_extraction => 2

/-- Does the suffix of the filename after the candidate key match
`(tesseract_extraction|pymupdf_extraction|from_csv)(?:_cleaned)?\.txt` as a
prefix (the pattern carries no end anchor, `re.match` only anchors the
start)? -/
def egkSuffixOK (s : List Char) : Bool :=
  startsWithBy (· = ·) "tesseract_extraction_cleaned.txt".data s ||
  startsWithBy (· = ·) "tesseract_extraction.txt".data s ||
  startsWithBy (· = ·) "pymupdf_extraction_cleaned.txt".data s ||
  startsWithBy (· = ·) "pymupdf_extraction.txt".data s ||
  startsWithBy (· = ·) "from_csv_cleaned.txt".data s ||
  startsWithBy (· = ·) "from_csv.txt".data s

/-- Scanner of the lazy group `(.+?)_` of `extract_group_key`: the first
position with an underscore whose remainder matches the suffix
alternation wins; the lazy dot matches any character except newline, and
needs at least one character before the underscore.  The accumulator holds
the reversed candidate key. -/
def egkAux : List Char → List Char → Option (List Char)
  | _, [] => none
  | acc, c :: rest =>
    if c = '_' && !acc.isEmpty && egkSuffixOK rest then some acc.reverse
    else if c = '\n' then none
    else egkAux (c :: acc) rest

/-- Function `extract_group_key` of `text_comparison.py`: the document key
encoded in a candidate filename, or `none` for an unrelated file. -/
def extract_group_key (filename : String) : Option String :=
  (egkAux [] filename.data).map String.mk

/-- Substring test used by the grouping branches of `compare_folder`. -/
def containsSub (needle hay : List Char) : Bool :=
  match hay with
  | [] => needle.isEmpty
  | _ :: t => startsWithBy (· = ·) needle hay || containsSub needle t

/-- Method slot assignment of `compare_folder`: the `if/elif` chain on
substrings of the filename. -/
def methodOf (filename : String) : Option Method :=
  if containsSub "_tesseract_extraction".data filename.data then
    some Method.tesseract_extraction
  else if containsSub "_pymupdf_extraction".data filename.data then
    some Method.pymupdf_extraction
  else if containsSub "_from_csv".data filename.data then
    some Method.from_csv
  else none

/-!
## Metrics of `text_comparison.py` (per-text scalar functions)
-/

/-- Function `word_count`: number of whitespace-separated tokens. -/
def word_count (s : String) : Nat :=
  (pySplit s.data).length

/-- Function `sentence_count`: number of occurrences of `[.!?]`. -/
def sentence_count (s : String) : Nat :=
  s.data.countP fun c => c = '.' || c = '!' || c = '?'

/-- Function `character_count`: raw length. -/
def character_count (s : String) : Nat :=
  s.data.length

/-- Function `ocr_error_rate` of `text_comparison.py`, float division
modelled exactly in `ℚ`: the fraction of words matched by
`re.search(r"[^-]", word)`, i.e. containing any character other than a
hyphen, over the guarded word count. -/
def ocr_error_rate (s : String) : ℚ :=
  (((pySplit s.data).countP fun w => w.any fun c => c ≠ '-') : ℚ) /
    ((max (pySplit s.data).length 1 : Nat) : ℚ)

/-- Function `average_word_length` with its guarded denominator. -/
def average_word_length (s : String) : ℚ :=
  ((((pySplit s.data).map List.length).sum : Nat) : ℚ) /
    ((max (pySplit s.data).length 1 : Nat) : ℚ)

/-- Function `punctuation_frequency`: frequency of `.,;:!?` over the
guarded length. -/
def punctuation_frequency (s : String) : ℚ :=
  ((s.data.countP isSpacingPunct : Nat) : ℚ) / ((max s.data.length 1 : Nat) : ℚ)

/-!
## Metrics of the archived comparison (`7_archive/c1_text_comparison.py`)
-/

/-- Sentence-boundary class `[.!?…]` of `_SENTENCE_BOUNDARY`. -/
def isSentencePunct (c : Char) : Bool :=
  c = '.' || c = '!' || c = '?' || c = '…'

/-- Scanner of `re.split` on `[.!?…]+\s|\n+`: a punctuation run directly
followed by one whitespace character is a delimiter (consuming that
character), otherwise a newline run is; the accumulator holds the reversed
current piece. -/
def sentSplitAux : Nat → List Char → List Char → List (List Char)
  | 0, acc, s => [acc.reverse ++ s]
  | fuel + 1, acc, s =>
    match s with
    | [] => [acc.reverse]
    | c :: rest =>
      if isSentencePunct c then
        let run := s.takeWhile isSentencePunct
        match s.drop run.length with
        | d :: rest2 =>
          if isPySpace d then acc.reverse :: sentSplitAux fuel [] rest2
          else sentSplitAux fuel (c :: acc) rest
        | [] => sentSplitAux fuel (c :: acc) rest
      else if c = '\n' then
        let run := s.takeWhile fun d => d = '\n'
        acc.reverse :: sentSplitAux fuel [] (s.drop run.length)
      else sentSplitAux fuel (c :: acc) rest

/-- Sentence split of the archived `_compute_metrics`. -/
def sentenceSplit (s : List Char) : List (List Char) :=
  sentSplitAux s.length [] s

/-- Suspicious-word heuristic helper: does a character satisfying `p` occur
strictly before one satisfying `q`? -/
def hasThen (p q : Char → Bool) : List Char → Bool
  | [] => false
  | c :: t => (p c && t.any q) || hasThen p q t

/-- Word flag of `_ocr_error_heuristic`: the Unicode replacement character,
a letter followed by a digit or a digit followed by a letter
(`[A-Za-z].*\d|\d.*[A-Za-z]`; words produced by `str.split()` contain no
newline, so the dot is unrestricted here), or any non-ASCII character. -/
def suspiciousWord (w : List Char) : Bool :=
  w.contains '�' || hasThen Char.isAlpha Char.isDigit w ||
    hasThen Char.isDigit Char.isAlpha w || w.any fun c => 127 < c.val

/-- Function `_ocr_error_heuristic`: suspicious fraction over the guarded
word count. -/
def ocrErrorHeuristic (words : List (List Char)) : ℚ :=
  ((words.countP suspiciousWord : Nat) : ℚ) / ((max words.length 1 : Nat) : ℚ)

/-- Metrics record computed by the archived `_compute_metrics`. -/
structure ArchiveMetrics where
  word_count : Nat
  sentence_count : Nat
  char_count : Nat
  avg_word_length : ℚ
  punctuation_frequency : ℚ
  lexical_diversity : ℚ
  ocr_error_rate : ℚ
deriving DecidableEq

/-- Function `_compute_metrics` of the archived comparison script.  The
average word length is guarded by the conditional of the source (zero for
empty texts), the three ratio fields by `max(·, 1)` denominators. -/
def computeMetrics (s : String) : ArchiveMetrics :=
  let text := s.data
  let words := pySplit text
  { word_count := words.length
    sentence_count :=
      ((sentenceSplit text).filter fun p => !(pyStrip p).isEmpty).length
    char_count := text.length
    avg_word_length :=
      if words.length = 0 then 0
      else (((words.map List.length).sum : Nat) : ℚ) / ((words.length : Nat) : ℚ)
    punctuation_frequency :=
      ((text.countP isPyPunct : Nat) : ℚ) / ((max text.length 1 : Nat) : ℚ)
    lexical_diversity :=
      ((words.dedup.length : Nat) : ℚ) / ((max words.length 1 : Nat) : ℚ)
    ocr_error_rate := ocrErrorHeuristic words }

/-- Function `_quality_score`: `word_count * (1 - ocr_error_rate)`. -/
def qualityScore (m : ArchiveMetrics) : ℚ :=
  (m.word_count : ℚ) * (1 - m.ocr_error_rate)

/-!
## Arbitration
-/

/-- Python `max(iterable, key=f)` over a non-empty sequence: the fold keeps
the current element unless a later one is strictly greater, so the first
maximal element wins. -/
def pyMaxBy {α : Type} (f : α → ℚ) : α → List α → α
  | best, [] => best
  | best, x :: t => if f best < f x then pyMaxBy f x t else pyMaxBy f best t

/-- Winner election of the archived `compare_folder`: the maximum of
`(method, quality score)` pairs over the candidates of a group, in their
encounter order. -/
def electRecommended (l : List (Method × ArchiveMetrics)) : Option Method :=
  match l with
  | [] => none
  | h :: t => some (pyMaxBy (fun p => qualityScore p.2) h t).1

/-- Per-method score of `calculate_recommendation`: each available metric
contributes to the accumulator and to the valid-metric count, and the
result is their quotient (`None` when no metric is available).  The float
literals 0.05, 0.15 and 0.1 are modelled by the exact rationals they
denote. -/
def methodScore (wc cc err awl pf : Option ℚ) : Option ℚ :=
  let s0 : ℚ × Nat := (0, 0)
  let s1 := match wc with
    | some w => (s0.1 + w, s0.2 + 1)
    | none => s0
  let s2 := match cc with
    | some c => (s1.1 + c / 100, s1.2 + 1)
    | none => s1
  let s3 := match err with
    | some e => (s2.1 - e * 1000, s2.2 + 1)
    | none => s2
  let s4 := match awl with
    | some a => (if 4 ≤ a ∧ a ≤ 6 then s3.1 + 50 else s3.1 - |a - 5| * 10, s3.2 + 1)
    | none => s3
  let s5 := match pf with
    | some p =>
      (if 1/20 ≤ p ∧ p ≤ 3/20 then s4.1 + 30 else s4.1 - |p - 1/10| * 100, s4.2 + 1)
    | none => s4
  if s5.2 = 0 then none else some (s5.1 / (s5.2 : ℚ))

/-- Scores dictionary of `calculate_recommendation` as an ordered list: the
loop runs over `methodOrder` and records each method with a defined
score. -/
def scoresList (s : Method → Option ℚ) : List (Method × ℚ) :=
  methodOrder.filterMap fun m => (s m).map fun q => (m, q)

/-- Selection step `max(scores, key=scores.get)` of
`calculate_recommendation` over the per-method scores, `none` when the
dictionary is empty. -/
def selectFromScores (s : Method → Option ℚ) : Option Method :=
  match scoresList s with
  | [] => none
  | h :: t => some (pyMaxBy Prod.snd h t).1

/-- Display label of a method, per `method_labels`. -/
def methodLabel : Method → String
  | Method.from_csv => "from_csv"
  | Method.pymupdf_extraction => "PyMuPDF"
  | Method.tesseract_extraction => "Tesseract"

/-- Function `calculate_recommendation` over the per-method optional
metrics. -/
def calculateRecommendation (wc cc err awl pf : Method → Option ℚ) : String :=
  match selectFromScores
      (fun m => methodScore (wc m) (cc m) (err m) (awl m) (pf m)) with
  | none => "No data available"
  | some m => methodLabel m

/-- Per-method score assignment read back from an association list of
scores (used to state order-invariance of the arbitration). -/
def scoresFromList (l : List (Method × ℚ)) (m : Method) : Option ℚ :=
  (l.find? fun p => p.1 = m).map Prod.snd

/-!
## Batch comparison (`compare_folder` of `text_comparison.py`)

A file is a `(name, contents)` pair; a group entry carries the per-method
file contents.  The summary row of a group is modelled by its `group`
column together with its `recommendation` column (the metric columns are
presentation formatting of the same per-file metric values).
-/

/-- Grouping state of `compare_folder`: insertion-ordered keys, each with a
per-method slot. -/
abbrev Groups : Type :=
  List (String × (Method → Option String))

/-- Dictionary `setdefault` step: append an empty per-method slot table for
a new key. -/
def setdefaultKey (g : Groups) (k : String) : Groups :=
  if g.any (fun e => e.1 = k) then g else g ++ [(k, fun _ => none)]

/-- Assignment `grouped[key][method] = file` (a later file silently
overwrites the slot). -/
def setMethod (g : Groups) (k : String) (m : Method) (content : String) : Groups :=
  g.map fun e =>
    if e.1 = k then (e.1, fun m2 => if m2 = m then some content else e.2 m2) else e

/-- Grouping step of `compare_folder` for one file. -/
def addFile (g : Groups) (f : String × String) : Groups :=
  match extract_group_key f.1 with
  | none => g
  | some k =>
    let g1 := setdefaultKey g k
    match methodOf f.1 with
    | some m => setMethod g1 k m f.2
    | none => g1

/-- Summary row of one group: its key and its recommendation, computed
from the per-method metrics exactly as the row loop of `compare_folder`
assembles them (`None` for an absent method). -/
def rowOf (e : String × (Method → Option String)) : String × String :=
  (e.1, calculateRecommendation
    (fun m => (e.2 m).map fun t => ((word_count t : Nat) : ℚ))
    (fun m => (e.2 m).map fun t => ((character_count t : Nat) : ℚ))
    (fun m => (e.2 m).map ocr_error_rate)
    (fun m => (e.2 m).map average_word_length)
    (fun m => (e.2 m).map punctuation_frequency))

/-- Function `compare_folder` on the list of text files of the folder: an
exception when no filename matches, otherwise one summary row per document
group in first-encounter order. -/
def compareFolder (files : List (String × String)) : Except String (List (String × String)) :=
  let grouped := files.foldl addFile []
  if grouped.isEmpty then
    Except.error "No matching extraction or from_csv files in folder"
  else
    Except.ok (grouped.map rowOf)

/-!
## Selection-and-copy loop (`text_file_recommendation.py`)
-/

/-- Per-row selection of `text_file_recommendation.py`: a
`<key>_from_csv.txt` file in the input directory always wins; only
otherwise is the recommendation column consulted, building
`<key>_<recommendation>_extraction.txt`; the row is skipped when neither
exists. -/
def selectFile (existing : List String) (base recMethod : String) : Option String :=
  let csvName := base ++ "_from_csv.txt"
  if csvName ∈ existing then some csvName
  else
    let recName := base ++ "_" ++ recMethod ++ "_extraction.txt"
    if recName ∈ existing then some recName else none

/-!
## Concrete scenario data
-/

/-- Document keys of a grouping state. -/
def keysOf (g : Groups) : List String :=
  g.map Prod.fst

/-- Boilerplate test of the repeated header stage: the normalized line
occurs more than twice among the document lines and is longer than ten
characters. -/
def boilerplateLine (lines : List (List Char)) (l : List Char) : Bool :=
  2 < lineCountsGet lines (normLine l) && 10 < (normLine l).length

/-- Metrics of the structured-source candidate in the end-to-end scenario
of the specification: word count 500, OCR error rate 0. -/
def scenarioStructured : ArchiveMetrics :=
  { word_count := 500, sentence_count := 25, char_count := 3000,
    avg_word_length := 5, punctuation_frequency := 1/100,
    lexical_diversity := 1/2, ocr_error_rate := 0 }

/-- Metrics of the native-extraction candidate: word count 480, OCR error
rate 0.02. -/
def scenarioNative : ArchiveMetrics :=
  { word_count := 480, sentence_count := 24, char_count := 2900,
    avg_word_length := 5, punctuation_frequency := 1/100,
    lexical_diversity := 1/2, ocr_error_rate := 1/50 }

/-- Metrics of the optical-extraction candidate: word count 300, OCR error
rate 0.25. -/
def scenarioOptical : ArchiveMetrics :=
  { word_count := 300, sentence_count := 15, char_count := 1800,
    avg_word_length := 5, punctuation_frequency := 1/100,
    lexical_diversity := 1/2, ocr_error_rate := 1/4 }

/-- Candidate group of the end-to-end scenario for key `2020-01-partyx`. -/
def scenarioCandidates : List (Method × ArchiveMetrics) :=
  [(Method.from_csv, scenarioStructured),
   (Method.pymupdf_extraction, scenarioNative),
   (Method.tesseract_extraction, scenarioOptical)]

/-- Document with the line `HM Government` appearing four times. -/
def hmGovernmentDoc : String :=
  "HM Government\nThe first substantive line of content\nHM Government\nAnother body line with detail\nHM Government\nClosing remarks of the document\nHM Government"

/-- The same document with every occurrence of the repeated header
removed. -/
def hmGovernmentCleaned : String :=
  "The first substantive line of content\nAnother body line with detail\nClosing remarks of the document"

/-- Score assignment with an exact tie between the first two methods, used
to witness the tie-break rule. -/
def tieScores : Method → Option ℚ
  | Method.from_csv => some 3
  | Method.pymupdf_extraction => some 3
  | Method.tesseract_extraction => none

/-- One-file folder used to witness the batch-comparison contract. -/
def c8WitnessFolder : List (String × String) :=
  [("2019-12-liberal_democrats_from_csv.txt", "hello world")]

/-!
## Theorems
-/

/-- C9: in the selection-and-copy stage, an existing `<key>_from_csv.txt`
file is always the one selected, whatever the recommendation column holds;
the recommended method is consulted only when no from_csv file exists, in
which case the recommended file is selected when present and the row is
skipped otherwise. -/
theorem C9_from_csv_priority :
    ∀ (existing : List String) (base recMethod : String),
      ((base ++ "_from_csv.txt") ∈ existing →
        selectFile existing base recMethod = some (base ++ "_from_csv.txt")) ∧
      ((base ++ "_from_csv.txt") ∉ existing →
        selectFile existing base recMethod =
          (if (base ++ "_" ++ recMethod ++ "_extraction.txt") ∈ existing then
            some (base ++ "_" ++ recMethod ++ "_extraction.txt")
          else none)) := by
  intro existing base recMethod
  constructor <;> intro h <;> simp [selectFile, h]

/-- Witness for C9 at a concrete directory listing: the from_csv file wins
although a file named after the recommendation also exists. -/
theorem C9_from_csv_priority_witness :
    selectFile ["k_from_csv.txt", "k_Tesseract_extraction.txt"] "k" "Tesseract" =
      some ("k" ++ "_from_csv.txt") :=
  (C9_from_csv_priority ["k_from_csv.txt", "k_Tesseract_extraction.txt"] "k" "Tesseract").1
    (by decide)

/-- C6: the Identity Grouper extracts document key
`2019-12-liberal_democrats` with method `tesseract_extraction` from the
first round-trip filename and the same key with method `from_csv` from the
second, and a filename matching no recognized suffix contributes no group
entry (the grouping step leaves the state unchanged). -/
theorem C6_grouping_roundtrip :
    extract_group_key "2019-12-liberal_democrats_tesseract_extraction.txt" =
      some "2019-12-liberal_democrats" ∧
    methodOf "2019-12-liberal_democrats_tesseract_extraction.txt" =
      some Method.tesseract_extraction ∧
    extract_group_key "2019-12-liberal_democrats_from_csv.txt" =
      some "2019-12-liberal_democrats" ∧
    methodOf "2019-12-liberal_democrats_from_csv.txt" = some Method.from_csv ∧
    ∀ (g : Groups) (f : String × String),
      extract_group_key f.1 = none → addFile g f = g := by
  refine ⟨by decide, by decide, by decide, by decide, ?_⟩
  intro g f h
  simp [addFile, h]

/-- Witness for C6: a folder's summary file is silently skipped by the
grouper. -/
theorem C6_grouping_roundtrip_witness :
    addFile [] ("comparison_summary.csv", "group,recommendation") = [] :=
  C6_grouping_roundtrip.2.2.2.2 [] ("comparison_summary.csv", "group,recommendation")
    (by decide)

/-- C2: divergence of the current `ocr_error_rate` of `text_comparison.py`
from the specified suspicious-word heuristic.  The word `hello` contains a
character other than a hyphen, so the current metric reports 1, while the
heuristic of the archived `_ocr_error_heuristic` (no replacement character,
no digit-letter mixture, no non-ASCII character) reports 0. -/
theorem C2_ocr_error_rate_divergence :
    ocr_error_rate "hello" = 1 ∧ ocrErrorHeuristic (pySplit "hello".data) = 0 := by
  have h2 : (pySplit "hello".data).length = 1 := by decide
  constructor
  · simp [ocr_error_rate, h2]
    decide
  · simp [ocrErrorHeuristic, h2]
    decide

/-- Characters of a replacement result come from the input or from the
replacement string. -/
theorem mem_pyReplaceAux {old new : List Char} :
    ∀ {fuel : Nat} {s : List Char} {c : Char},
      c ∈ pyReplaceAux old new fuel s → c ∈ s ∨ c ∈ new := by
  intro fuel
  induction fuel with
  | zero => intro s c h; exact Or.inl h
  | succ n ih =>
    intro s c h
    match s with
    | [] => cases h
    | d :: rest =>
      simp only [pyReplaceAux] at h
      by_cases hm : startsWithBy (· = ·) old (d :: rest) && !old.isEmpty
      · rw [if_pos hm] at h
        rcases List.mem_append.mp h with hn | hr
        · exact Or.inr hn
        · rcases ih hr with hs | hn
          · exact Or.inl (List.drop_subset _ _ hs)
          · exact Or.inr hn
      · rw [if_neg hm] at h
        rcases List.mem_cons.mp h with rfl | hr
        · exact Or.inl (List.mem_cons_self _ _)
        · rcases ih hr with hs | hn
          · exact Or.inl (List.mem_cons_of_mem _ hs)
          · exact Or.inr hn

/-- A character absent from both the input and the replacement string is
absent from the replacement result. -/
theorem pyReplace_notMem {old new s : List Char} {z : Char}
    (hs : z ∉ s) (hn : z ∉ new) : z ∉ pyReplace old new s := by
  intro h
  rcases mem_pyReplaceAux h with h' | h'
  · exact hs h'
  · exact hn h'

/-- Replacement of a single character `z` by a `z`-free string removes
every occurrence of `z`. -/
theorem pyReplaceAux_single_elim {new : List Char} {z : Char} (hn : z ∉ new) :
    ∀ {fuel : Nat} {s : List Char}, s.length ≤ fuel →
      z ∉ pyReplaceAux [z] new fuel s := by
  intro fuel
  induction fuel with
  | zero =>
    intro s hlen
    have : s = [] := List.eq_nil_of_length_eq_zero (Nat.le_zero.mp hlen)
    subst this
    simp [pyReplaceAux]
  | succ n ih =>
    intro s hlen h
    match s with
    | [] => cases h
    | d :: rest =>
      simp only [pyReplaceAux] at h
      by_cases hm : startsWithBy (· = ·) [z] (d :: rest) && !([z] : List Char).isEmpty
      · rw [if_pos hm] at h
        rcases List.mem_append.mp h with h' | h'
        · exact hn h'
        · exact ih (by simpa using Nat.le_of_succ_le_succ hlen) h'
      · rw [if_neg hm] at h
        have hdz : ¬(z = d) := by
          intro hzd
          exact hm (by simp [startsWithBy, hzd])
        rcases List.mem_cons.mp h with rfl | h'
        · exact hdz rfl
        · exact ih (Nat.le_of_succ_le_succ hlen) h'

/-- Elimination form of `pyReplace` on a single-character key. -/
theorem pyReplace_elim {new s : List Char} {z : Char} (hn : z ∉ new) :
    z ∉ pyReplace [z] new s :=
  pyReplaceAux_single_elim hn (Nat.le_refl _)

/-- Characters produced by the word-boundary literal substitution come from
the input or from the replacement. -/
theorem mem_subWordLitAux {ci : Bool} {key repl : List Char} :
    ∀ {fuel : Nat} {prev : Option Char} {s : List Char} {c : Char},
      c ∈ subWordLitAux ci key repl fuel prev s → c ∈ s ∨ c ∈ repl := by
  intro fuel
  induction fuel with
  | zero => intro _ s c h; exact Or.inl h
  | succ n ih =>
    intro prev s c h
    match s with
    | [] => cases h
    | d :: rest =>
      simp only [subWordLitAux] at h
      by_cases hm : noWordBefore prev &&
          startsWithBy (if ci then charEqCI else fun a b => a = b) key (d :: rest) &&
          !key.isEmpty && boundaryAfter ((d :: rest).drop key.length)
      · rw [if_pos hm] at h
        rcases List.mem_append.mp h with hn | hr
        · exact Or.inr hn
        · rcases ih hr with hs | hn
          · exact Or.inl (List.drop_subset _ _ hs)
          · exact Or.inr hn
      · rw [if_neg hm] at h
        rcases List.mem_cons.mp h with rfl | hr
        · exact Or.inl (List.mem_cons_self _ _)
        · rcases ih hr with hs | hn
          · exact Or.inl (List.mem_cons_of_mem _ hs)
          · exact Or.inr hn

/-- Absence form of `subWordLit`. -/
theorem subWordLit_notMem {ci : Bool} {key repl : String} {s : List Char} {z : Char}
    (hs : z ∉ s) (hr : z ∉ repl.data) : z ∉ subWordLit ci key repl s := by
  intro h
  rcases mem_subWordLitAux h with h' | h'
  · exact hs h'
  · exact hr h'

/-- Successful head test of the sentence-start fix determines the input
shape. -/
theorem dotSpaceL_eq_some {s r : List Char} (h : dotSpaceL s = some r) :
    s = '.' :: ' ' :: 'l' :: r := by
  unfold dotSpaceL at h
  split at h
  · split at h
    · injection h with h'
      subst h'
      rfl
    · cases h
  · cases h

/-- Characters produced by the sentence-start scanner come from the input
or are the capital I it writes. -/
theorem mem_subDotLAux :
    ∀ {fuel : Nat} {s : List Char} {c : Char},
      c ∈ subDotLAux fuel s → c ∈ s ∨ c = 'I' := by
  intro fuel
  induction fuel with
  | zero => intro s c h; exact Or.inl h
  | succ n ih =>
    intro s c h
    match s with
    | [] => simp [subDotLAux] at h
    | d :: rest =>
      simp only [subDotLAux] at h
      cases hd : dotSpaceL (d :: rest) with
      | some rest2 =>
        rw [hd] at h
        have hshape := dotSpaceL_eq_some hd
        rw [hshape]
        simp only [List.mem_cons] at h
        rcases h with rfl | rfl | rfl | h
        · exact Or.inl (by simp)
        · exact Or.inl (by simp)
        · exact Or.inr rfl
        · rcases ih h with hs | hI
          · exact Or.inl (by simp [hs])
          · exact Or.inr hI
      | none =>
        rw [hd] at h
        simp only [List.mem_cons] at h
        rcases h with rfl | h
        · exact Or.inl (List.mem_cons_self _ _)
        · rcases ih h with hs | hI
          · exact Or.inl (List.mem_cons_of_mem _ hs)
          · exact Or.inr hI

/-- Absence form of `subStartDotL` for characters other than I. -/
theorem subStartDotL_notMem {s : List Char} {z : Char}
    (hs : z ∉ s) (hz : z ≠ 'I') : z ∉ subStartDotL s := by
  intro h
  match s with
  | [] =>
    simp only [subStartDotL] at h
    cases h
  | c :: rest =>
    simp only [subStartDotL] at h
    by_cases hb : (c = 'l' && boundaryAfter rest) = true
    · rw [if_pos hb] at h
      rcases List.mem_cons.mp h with rfl | h
      · exact hz rfl
      · rcases mem_subDotLAux h with h' | h'
        · exact hs (List.mem_cons_of_mem _ h')
        · exact hz h'
    · rw [if_neg hb] at h
      rcases mem_subDotLAux h with h' | h'
      · exact hs h'
      · exact hz h'

/-- C10: the character-level OCR substitution stage leaves no ASCII digit
0 and no ASCII digit 1 in its output, because its replacement table
unconditionally rewrites every 0 to a capital O and every 1 to a lowercase
l and no later fix of the stage reintroduces a digit; in particular the
numeral `2010` is rewritten to `2OlO`. -/
theorem C10_zero_one_eliminated :
    (∀ t : List Char,
      '0' ∉ fixOcrCharacterErrors t ∧ '1' ∉ fixOcrCharacterErrors t) ∧
    fixOcrCharacterErrors "2010".data = "2OlO".data := by
  constructor
  · intro t
    constructor
    · simp only [fixOcrCharacterErrors]
      refine subWordLit_notMem ?_ (by decide)
      refine subWordLit_notMem ?_ (by decide)
      refine subWordLit_notMem ?_ (by decide)
      refine subWordLit_notMem ?_ (by decide)
      refine subWordLit_notMem ?_ (by decide)
      refine subStartDotL_notMem ?_ (by decide)
      refine subWordLit_notMem ?_ (by decide)
      refine subWordLit_notMem ?_ (by decide)
      refine subWordLit_notMem ?_ (by decide)
      refine subWordLit_notMem ?_ (by decide)
      simp only [ocrCharReplacements, List.foldl]
      refine pyReplace_notMem ?_ (by decide)
      refine pyReplace_notMem ?_ (by decide)
      refine pyReplace_notMem ?_ (by decide)
      refine pyReplace_notMem ?_ (by decide)
      refine pyReplace_notMem ?_ (by decide)
      refine pyReplace_notMem ?_ (by decide)
      refine pyReplace_notMem ?_ (by decide)
      refine pyReplace_notMem ?_ (by decide)
      refine pyReplace_notMem ?_ (by decide)
      exact pyReplace_elim (by decide)
    · simp only [fixOcrCharacterErrors]
      refine subWordLit_notMem ?_ (by decide)
      refine subWordLit_notMem ?_ (by decide)
      refine subWordLit_notMem ?_ (by decide)
      refine subWordLit_notMem ?_ (by decide)
      refine subWordLit_notMem ?_ (by decide)
      refine subStartDotL_notMem ?_ (by decide)
      refine subWordLit_notMem ?_ (by decide)
      refine subWordLit_notMem ?_ (by decide)
      refine subWordLit_notMem ?_ (by decide)
      refine subWordLit_notMem ?_ (by decide)
      simp only [ocrCharReplacements, List.foldl]
      refine pyReplace_notMem ?_ (by decide)
      refine pyReplace_notMem ?_ (by decide)
      refine pyReplace_notMem ?_ (by decide)
      refine pyReplace_notMem ?_ (by decide)
      refine pyReplace_notMem ?_ (by decide)
      refine pyReplace_notMem ?_ (by decide)
      refine pyReplace_notMem ?_ (by decide)
      refine pyReplace_notMem ?_ (by decide)
      exact pyReplace_elim (by decide)
  · decide

set_option maxRecDepth 8000

/-- C5 counterexample: the Repair Pipeline is not idempotent.  On the
plain ASCII input `ab-cd-ef` a second application of `clean_text` changes
the output again, because the interior-hyphen collapse of
`fix_word_breaks` rejoins only one short hyphen pair per pass. -/
theorem C5_counterexample_not_idempotent :
    cleanText (cleanText "ab-cd-ef") ≠ cleanText "ab-cd-ef" := by decide

/-- C5 (amended): the Repair Pipeline is not idempotent on all well-formed
input; one application of `clean_text` to `ab-cd-ef` yields `abcd-ef`, and
a second application yields `abcdef`, the short-fragment hyphen collapse of
`fix_word_breaks` cascading across applications. -/
theorem C5_word_break_cascade :
    cleanText "ab-cd-ef" = "abcd-ef" ∧ cleanText "abcd-ef" = "abcdef" ∧
      cleanText (cleanText "ab-cd-ef") = "abcdef" := by
  refine ⟨by decide, by decide, by decide⟩

/-- The header-removal loop with its seen-set is a plain filter: as long as
every remembered line is frequent and long, a line is kept exactly when its
normalized form is not both frequent and long. -/
theorem hfAux_eq_filter (cnt : List Char → Nat) :
    ∀ (ls seen : List (List Char)),
      (∀ c ∈ seen, 2 < cnt c ∧ 10 < c.length) →
      hfAux cnt seen ls =
        ls.filter fun l =>
          !(decide (2 < cnt (normLine l)) && decide (10 < (normLine l).length)) := by
  intro ls
  induction ls with
  | nil => intro seen _; rfl
  | cons l rest ih =>
    intro seen hseen
    simp only [hfAux, List.filter_cons]
    by_cases hmem : normLine l ∈ seen
    · have h2 : seen.contains (normLine l) = true :=
        List.elem_eq_true_of_mem hmem
      have h1 : 2 < cnt (normLine l) ∧ 10 < (normLine l).length := hseen _ hmem
      rw [show (decide (2 < cnt (normLine l)) && !seen.contains (normLine l) &&
            decide (10 < (normLine l).length)) = false by
          simp only [h2, Bool.not_true, Bool.and_false, Bool.false_and]]
      rw [if_neg Bool.false_ne_true, if_pos h2]
      rw [show (!(decide (2 < cnt (normLine l)) && decide (10 < (normLine l).length))) =
            false by simp [h1.1, h1.2]]
      rw [if_neg Bool.false_ne_true]
      exact ih seen hseen
    · have h2 : seen.contains (normLine l) = false := by
        rcases hc : seen.contains (normLine l) with _ | _
        · rfl
        · exact absurd (List.mem_of_elem_eq_true hc) hmem
      by_cases h1 : 2 < cnt (normLine l) ∧ 10 < (normLine l).length
      · rw [show (decide (2 < cnt (normLine l)) && !seen.contains (normLine l) &&
              decide (10 < (normLine l).length)) = true by
            simp [h2, h1.1, h1.2, hmem]]
        rw [if_pos rfl]
        rw [show (!(decide (2 < cnt (normLine l)) && decide (10 < (normLine l).length))) =
              false by simp [h1.1, h1.2]]
        rw [if_neg Bool.false_ne_true]
        refine ih (normLine l :: seen) ?_
        intro c hc
        rcases List.mem_cons.mp hc with rfl | hc
        · exact h1
        · exact hseen c hc
      · rw [show (decide (2 < cnt (normLine l)) && !seen.contains (normLine l) &&
              decide (10 < (normLine l).length)) = false by
            rcases Decidable.not_and_iff_or_not.mp h1 with h | h <;> simp [h, hmem]]
        rw [if_neg Bool.false_ne_true, if_neg (by simp [h2, hmem])]
        rw [show (!(decide (2 < cnt (normLine l)) && decide (10 < (normLine l).length))) =
              true by rcases Decidable.not_and_iff_or_not.mp h1 with h | h <;> simp [h]]
        rw [if_pos rfl]
        rw [ih seen hseen]

/-- C7: the repeated header/footer stage removes every line whose trimmed
lower-cased form is longer than ten characters and occurs more than twice,
from all of its occurrences (the stage is exactly the filter dropping such
lines); in particular a line `HM Government` appearing four times is
removed from all four occurrences. -/
theorem C7_repeated_header_removed :
    (∀ s : String,
      removeHeaderFooterRepetition s.data =
        joinNL ((splitNL s.data).filter fun l => !boilerplateLine (splitNL s.data) l)) ∧
    String.mk (removeHeaderFooterRepetition hmGovernmentDoc.data) = hmGovernmentCleaned := by
  constructor
  · intro s
    show joinNL (hfAux (lineCountsGet (splitNL s.data)) [] (splitNL s.data)) = _
    rw [hfAux_eq_filter (lineCountsGet (splitNL s.data)) (splitNL s.data) [] (by simp)]
    rfl
  · decide

/-- Guarded ratios with a numerator bounded by the unguarded denominator
lie in the unit interval. -/
theorem ratio_nonneg_le_one {a b : Nat} (hab : a ≤ b) :
    0 ≤ ((a : ℚ) / ((max b 1 : Nat) : ℚ)) ∧ ((a : ℚ) / ((max b 1 : Nat) : ℚ)) ≤ 1 := by
  have h1 : (1 : Nat) ≤ max b 1 := le_max_right b 1
  have hpos : (0 : ℚ) < ((max b 1 : Nat) : ℚ) := by exact_mod_cast h1
  constructor
  · exact div_nonneg (Nat.cast_nonneg a) (le_of_lt hpos)
  · rw [div_le_one hpos]
    exact_mod_cast le_trans hab (le_max_left b 1)

/-- C4: for every text, including the empty string, the ratio fields of
the Metrics computation (punctuation_frequency, lexical_diversity,
ocr_error_rate) lie in the closed interval from 0 to 1, the average word
length is non-negative, and no metric divides by zero: the guarded
denominators are at least 1 (the archived average word length uses the
equivalent conditional guard returning 0 for empty texts).  The metric
functions of the current comparison script are covered alongside those of
the archived `_compute_metrics`. -/
theorem C4_metrics_total_and_bounded :
    ∀ s : String,
      (0 ≤ (computeMetrics s).punctuation_frequency ∧
        (computeMetrics s).punctuation_frequency ≤ 1) ∧
      (0 ≤ (computeMetrics s).lexical_diversity ∧
        (computeMetrics s).lexical_diversity ≤ 1) ∧
      (0 ≤ (computeMetrics s).ocr_error_rate ∧
        (computeMetrics s).ocr_error_rate ≤ 1) ∧
      0 ≤ (computeMetrics s).avg_word_length ∧
      (0 ≤ punctuation_frequency s ∧ punctuation_frequency s ≤ 1) ∧
      (0 ≤ ocr_error_rate s ∧ ocr_error_rate s ≤ 1) ∧
      0 ≤ average_word_length s ∧
      1 ≤ max (pySplit s.data).length 1 ∧
      1 ≤ max s.data.length 1 := by
  intro s
  have hden1 : (0 : ℚ) < ((max (pySplit s.data).length 1 : Nat) : ℚ) := by
    exact_mod_cast le_max_right (pySplit s.data).length 1
  refine ⟨?_, ?_, ?_, ?_, ?_, ?_, ?_, le_max_right _ 1, le_max_right _ 1⟩
  · simpa [computeMetrics] using
      ratio_nonneg_le_one (List.countP_le_length isPyPunct (l := s.data))
  · simpa [computeMetrics] using
      ratio_nonneg_le_one ((List.dedup_sublist (pySplit s.data)).length_le)
  · simpa [computeMetrics, ocrErrorHeuristic] using
      ratio_nonneg_le_one (List.countP_le_length suspiciousWord (l := pySplit s.data))
  · simp only [computeMetrics]
    split
    · exact le_refl 0
    · exact div_nonneg (Nat.cast_nonneg _) (Nat.cast_nonneg _)
  · simpa [punctuation_frequency] using
      ratio_nonneg_le_one (List.countP_le_length isSpacingPunct (l := s.data))
  · simpa [ocr_error_rate] using
      ratio_nonneg_le_one
        (List.countP_le_length (fun w => w.any fun c => c ≠ '-') (l := pySplit s.data))
  · exact div_nonneg (Nat.cast_nonneg _) (le_of_lt hden1)

/-- Python `max(..., key=f)` returns an element of the sequence. -/
theorem pyMaxBy_mem {α : Type} (f : α → ℚ) :
    ∀ (l : List α) (x : α), pyMaxBy f x l ∈ x :: l := by
  intro l
  induction l with
  | nil => intro x; simp [pyMaxBy]
  | cons a t ih =>
    intro x
    simp only [pyMaxBy]
    by_cases h : f x < f a
    · rw [if_pos h]
      rcases List.mem_cons.mp (ih a) with h' | hm
      · simp [h']
      · exact List.mem_cons_of_mem _ (List.mem_cons_of_mem _ hm)
    · rw [if_neg h]
      rcases List.mem_cons.mp (ih x) with h' | hm
      · simp [h']
      · exact List.mem_cons_of_mem _ (List.mem_cons_of_mem _ hm)

/-- Python `max(..., key=f)` returns an element with the maximal key. -/
theorem pyMaxBy_le {α : Type} (f : α → ℚ) :
    ∀ (l : List α) (x y : α), y ∈ x :: l → f y ≤ f (pyMaxBy f x l) := by
  intro l
  induction l with
  | nil =>
    intro x y hy
    rcases List.mem_cons.mp hy with rfl | h
    · exact le_refl _
    · cases h
  | cons a t ih =>
    intro x y hy
    simp only [pyMaxBy]
    by_cases h : f x < f a
    · rw [if_pos h]
      rcases List.mem_cons.mp hy with rfl | hy'
      · exact le_trans (le_of_lt h) (ih a a (List.mem_cons_self _ _))
      · exact ih a y hy'
    · rw [if_neg h]
      rcases List.mem_cons.mp hy with rfl | hy'
      · exact ih _ _ (List.mem_cons_self _ _)
      · rcases List.mem_cons.mp hy' with rfl | hy''
        · exact le_trans (le_of_not_lt h) (ih _ _ (List.mem_cons_self _ _))
        · exact ih _ _ (List.mem_cons_of_mem _ hy'')

set_option maxHeartbeats 2000000

/-- C1: every candidate's quality score is its word count times one minus
its OCR error rate, and the elected winner of a (non-empty) document group
is the available candidate with the maximal such score; on the end-to-end
scenario group (word counts 500, 480, 300 and error rates 0, 0.02, 0.25)
the scores are 500, 470.4 and 225 and the structured-source `from_csv`
candidate wins. -/
theorem C1_quality_score_argmax :
    (∀ m : ArchiveMetrics,
      qualityScore m = (m.word_count : ℚ) * (1 - m.ocr_error_rate)) ∧
    (∀ (x : Method × ArchiveMetrics) (l : List (Method × ArchiveMetrics)),
      electRecommended (x :: l) =
        some (pyMaxBy (fun p => qualityScore p.2) x l).1 ∧
      pyMaxBy (fun p => qualityScore p.2) x l ∈ x :: l ∧
      ∀ y ∈ x :: l,
        qualityScore y.2 ≤
          qualityScore (pyMaxBy (fun p => qualityScore p.2) x l).2) ∧
    (electRecommended scenarioCandidates = some Method.from_csv ∧
      qualityScore scenarioStructured = 500 ∧
      qualityScore scenarioNative = 2352 / 5 ∧
      qualityScore scenarioOptical = 225) := by
  have hS : qualityScore scenarioStructured = 500 := by
    norm_num [qualityScore, scenarioStructured]
  have hN : qualityScore scenarioNative = 2352 / 5 := by
    norm_num [qualityScore, scenarioNative]
  have hO : qualityScore scenarioOptical = 225 := by
    norm_num [qualityScore, scenarioOptical]
  refine ⟨fun m => rfl,
    fun x l => ⟨rfl, pyMaxBy_mem (fun p => qualityScore p.2) l x,
      fun y hy => pyMaxBy_le (fun p => qualityScore p.2) l x y hy⟩,
    ?_, hS, hN, hO⟩
  simp only [electRecommended, scenarioCandidates, pyMaxBy, hS, hN, hO]
  rw [if_neg (by norm_num), if_neg (by norm_num)]

/-- Witness for C1 at the scenario group: the optical candidate's score is
bounded by the winner's. -/
theorem C1_quality_score_argmax_witness :
    qualityScore scenarioOptical ≤
      qualityScore (pyMaxBy (fun p => qualityScore p.2)
        (Method.from_csv, scenarioStructured)
        [(Method.pymupdf_extraction, scenarioNative),
         (Method.tesseract_extraction, scenarioOptical)]).2 :=
  (C1_quality_score_argmax.2.1 (Method.from_csv, scenarioStructured)
      [(Method.pymupdf_extraction, scenarioNative),
       (Method.tesseract_extraction, scenarioOptical)]).2.2
    (Method.tesseract_extraction, scenarioOptical) (by simp)

/-- Every method appears in the fixed method order. -/
theorem mem_methodOrder (m : Method) : m ∈ methodOrder := by
  cases m <;> simp [methodOrder]

/-- Membership in the scores dictionary is exactly definedness of the
score assignment. -/
theorem mem_scoresList {s : Method → Option ℚ} {m : Method} {q : ℚ} :
    (m, q) ∈ scoresList s ↔ s m = some q := by
  constructor
  · intro h
    rcases List.mem_filterMap.mp h with ⟨m', _, hm'⟩
    rcases Option.map_eq_some'.mp hm' with ⟨q', hq', heq⟩
    cases heq
    exact hq'
  · intro h
    exact List.mem_filterMap.mpr ⟨m, mem_methodOrder m, by rw [h]; rfl⟩

/-- Keys with a single occurrence determine their value in an association
list with distinct keys. -/
theorem assoc_value_unique :
    ∀ {l : List (Method × ℚ)} {m : Method} {q q' : ℚ},
      (l.map Prod.fst).Nodup → (m, q) ∈ l → (m, q') ∈ l → q = q' := by
  intro l
  induction l with
  | nil => intro m q q' _ h; cases h
  | cons p t ih =>
    intro m q q' hn h1 h2
    have hn1 : p.1 ∉ t.map Prod.fst := (List.nodup_cons.mp hn).1
    have hn2 : (t.map Prod.fst).Nodup := (List.nodup_cons.mp hn).2
    rcases List.mem_cons.mp h1 with rfl | h1'
    · rcases List.mem_cons.mp h2 with heq | h2'
      · exact congrArg Prod.snd heq.symm
      · exact absurd (List.mem_map_of_mem Prod.fst h2') (by simpa using hn1)
    · rcases List.mem_cons.mp h2 with heq | h2'
      · exact absurd (List.mem_map_of_mem Prod.fst h1')
          (by rw [← heq] at hn1; simpa using hn1)
      · exact ih hn2 h1' h2'

/-- Lookup characterization of `scoresFromList` under distinct keys. -/
theorem scoresFromList_eq_some_iff {l : List (Method × ℚ)}
    (hn : (l.map Prod.fst).Nodup) (m : Method) (q : ℚ) :
    scoresFromList l m = some q ↔ (m, q) ∈ l := by
  constructor
  · intro h
    rcases Option.map_eq_some'.mp h with ⟨pr, hfind, hsnd⟩
    have hpr : pr.1 = m := by
      have := List.find?_some hfind
      simpa using this
    have hmem := List.mem_of_find?_eq_some hfind
    rw [← hpr, ← hsnd]
    exact hmem
  · intro h
    induction l with
    | nil => cases h
    | cons p t ih =>
      have hn1 : p.1 ∉ t.map Prod.fst := (List.nodup_cons.mp hn).1
      have hn2 : (t.map Prod.fst).Nodup := (List.nodup_cons.mp hn).2
      by_cases hp : p.1 = m
      · have hpq : p = (m, q) := by
          rcases List.mem_cons.mp h with heq | h'
          · exact heq.symm
          · exact absurd (List.mem_map_of_mem Prod.fst h')
              (by rw [hp] at hn1; simpa using hn1)
        simp [scoresFromList, List.find?, hpq]
      · have h' : (m, q) ∈ t := by
          rcases List.mem_cons.mp h with heq | h'
          · exact absurd (congrArg Prod.fst heq.symm) hp
          · exact h'
        have := ih hn2 h'
        simpa [scoresFromList, List.find?, hp] using this

/-- Reordering the encountered candidates does not change the score
assignment read from them, when methods are distinct. -/
theorem scoresFromList_perm {l l' : List (Method × ℚ)}
    (hperm : l.Perm l') (hn : (l.map Prod.fst).Nodup) :
    scoresFromList l = scoresFromList l' := by
  have hn' : (l'.map Prod.fst).Nodup := ((hperm.map Prod.fst).nodup_iff).mp hn
  funext m
  cases hq : scoresFromList l m with
  | some q =>
    have hmem := (scoresFromList_eq_some_iff hn m q).mp hq
    exact ((scoresFromList_eq_some_iff hn' m q).mpr (hperm.subset hmem)).symm
  | none =>
    cases hq' : scoresFromList l' m with
    | none => rfl
    | some q' =>
      have hmem := (scoresFromList_eq_some_iff hn' m q').mp hq'
      have := (scoresFromList_eq_some_iff hn m q').mpr (hperm.symm.subset hmem)
      rw [hq] at this
      cases this

/-- Python `max(..., key=f)` keeps the first maximal element: the sequence
splits into a strictly smaller prefix, the result, and a no-greater
suffix. -/
theorem pyMaxBy_split {α : Type} (f : α → ℚ) :
    ∀ (l : List α) (x : α),
      ∃ l₁ l₂, x :: l = l₁ ++ pyMaxBy f x l :: l₂ ∧
        (∀ y ∈ l₁, f y < f (pyMaxBy f x l)) ∧
        (∀ y ∈ l₂, f y ≤ f (pyMaxBy f x l)) := by
  intro l
  induction l with
  | nil =>
    intro x
    exact ⟨[], [], rfl, by simp, by simp⟩
  | cons a t ih =>
    intro x
    simp only [pyMaxBy]
    by_cases h : f x < f a
    · rw [if_pos h]
      obtain ⟨l₁, l₂, heq, hlt, hle⟩ := ih a
      refine ⟨x :: l₁, l₂, by rw [List.cons_append, ← heq], ?_, hle⟩
      intro y hy
      rcases List.mem_cons.mp hy with rfl | hy'
      · rcases l₁ with _ | ⟨b, l₁'⟩
        · simp only [List.nil_append] at heq
          injection heq with h1 _
          rw [← h1]
          exact h
        · rw [List.cons_append] at heq
          injection heq with h1 _
          exact lt_trans h (h1 ▸ hlt b (List.mem_cons_self _ _))
      · exact hlt y hy'
    · rw [if_neg h]
      obtain ⟨l₁, l₂, heq, hlt, hle⟩ := ih x
      rcases l₁ with _ | ⟨b, l₁'⟩
      · simp only [List.nil_append] at heq
        injection heq with h1 h2
        refine ⟨[], a :: t, by simp [← h1], by simp, ?_⟩
        intro y hy
        rcases List.mem_cons.mp hy with rfl | hy'
        · rw [← h1]
          exact le_of_not_lt h
        · rw [← h2] at hle
          exact hle y hy'
      · rw [List.cons_append] at heq
        injection heq with h1 h2
        refine ⟨x :: a :: l₁', l₂, by rw [List.cons_append, List.cons_append, ← h2], ?_, hle⟩
        intro y hy
        rcases List.mem_cons.mp hy with rfl | hy'
        · exact h1 ▸ hlt b (List.mem_cons_self _ _)
        · rcases List.mem_cons.mp hy' with rfl | hy''
          · exact lt_of_le_of_lt (le_of_not_lt h)
              (h1 ▸ hlt b (List.mem_cons_self _ _))
          · exact hlt y (List.mem_cons_of_mem _ hy'')

/-- The scores dictionary is listed in strictly increasing method
priority. -/
theorem scoresList_pairwise (s : Method → Option ℚ) :
    List.Pairwise (fun a b : Method × ℚ => priorityIdx a.1 < priorityIdx b.1)
      (scoresList s) := by
  have hord : List.Pairwise (fun m m' : Method => priorityIdx m < priorityIdx m')
      methodOrder := by
    simp [methodOrder, List.pairwise_cons, priorityIdx]
  unfold scoresList
  refine List.pairwise_filterMap.mpr (hord.imp ?_)
  intro m m' hmm' b hb b' hb'
  rcases Option.map_eq_some'.mp hb with ⟨q, _, rfl⟩
  rcases Option.map_eq_some'.mp hb' with ⟨q', _, rfl⟩
  simpa using hmm'

/-- Any defined score makes the selection succeed. -/
theorem selectFromScores_isSome {s : Method → Option ℚ} {m : Method} {q : ℚ}
    (hm : s m = some q) : (selectFromScores s).isSome = true := by
  have hmem : (m, q) ∈ scoresList s := mem_scoresList.mpr hm
  unfold selectFromScores
  cases hl : scoresList s with
  | nil => rw [hl] at hmem; cases hmem
  | cons h t => rfl

/-- Characterization of the selection: the winner is an available method
whose score bounds every available score, and any exactly tied method
comes no earlier in the fixed priority list. -/
theorem selectFromScores_spec (s : Method → Option ℚ) (w : Method)
    (hw : selectFromScores s = some w) :
    ∃ qw, s w = some qw ∧ ∀ m q, s m = some q →
      q ≤ qw ∧ (qw ≤ q → priorityIdx w ≤ priorityIdx m) := by
  unfold selectFromScores at hw
  cases hl : scoresList s with
  | nil => rw [hl] at hw; cases hw
  | cons h t =>
    rw [hl] at hw
    injection hw with hw'
    obtain ⟨l₁, l₂, heq, hlt, hle⟩ := pyMaxBy_split Prod.snd t h
    have hpw := scoresList_pairwise s
    rw [hl, heq] at hpw
    have hbmem : pyMaxBy Prod.snd h t ∈ scoresList s := by
      rw [hl, heq]
      exact List.mem_append.mpr (Or.inr (List.mem_cons_self _ _))
    refine ⟨(pyMaxBy Prod.snd h t).2, ?_, ?_⟩
    · rw [← hw']
      exact mem_scoresList.mp hbmem
    · intro m q hm
      have hmem : (m, q) ∈ scoresList s := mem_scoresList.mpr hm
      rw [hl, heq] at hmem
      rcases List.mem_append.mp hmem with hm1 | hm2
      · have hq := hlt _ hm1
        exact ⟨le_of_lt hq, fun hle' => absurd hle' (not_le.mpr hq)⟩
      · rcases List.mem_cons.mp hm2 with heq2 | hm2'
        · refine ⟨le_of_eq (congrArg Prod.snd heq2), fun _ => ?_⟩
          rw [← hw', ← congrArg Prod.fst heq2]
        · refine ⟨hle _ hm2', fun _ => ?_⟩
          have hpair := (List.pairwise_append.mp hpw).2.1
          have hrel := (List.pairwise_cons.mp hpair).1 _ hm2'
          rw [← hw']
          exact le_of_lt hrel

/-- C3: for a group with at least two available methods, arbitration
succeeds; the selected winner is an available method whose score is
maximal among the available scores, an exact tie is broken in favour of
the method earliest in the fixed priority list (from_csv before
pymupdf_extraction before tesseract_extraction), and the winner is a
function of the score-per-available-method mapping alone, invariant under
reordering of how candidates were encountered. -/
theorem C3_arbitration_deterministic :
    (∀ (s : Method → Option ℚ) (m₁ m₂ : Method) (q₁ q₂ : ℚ),
      m₁ ≠ m₂ → s m₁ = some q₁ → s m₂ = some q₂ →
      (selectFromScores s).isSome = true ∧
      ∀ w qw, selectFromScores s = some w → s w = some qw →
        ∀ m q, s m = some q →
          q ≤ qw ∧ (qw ≤ q → priorityIdx w ≤ priorityIdx m)) ∧
    (∀ (l l' : List (Method × ℚ)), l.Perm l' → (l.map Prod.fst).Nodup →
      selectFromScores (scoresFromList l) = selectFromScores (scoresFromList l')) := by
  constructor
  · intro s m₁ m₂ q₁ q₂ _ h1 _
    refine ⟨selectFromScores_isSome h1, ?_⟩
    intro w qw hw hqw m q hm
    obtain ⟨qw', hqw', hprop⟩ := selectFromScores_spec s w hw
    rw [hqw] at hqw'
    injection hqw' with hq
    rw [hq]
    exact hprop m q hm
  · intro l l' hperm hn
    rw [scoresFromList_perm hperm hn]

/-- Witness for C3 at the exactly tied assignment `tieScores`: the winner
is `from_csv`, the method earliest in the priority list among the tied
pair. -/
theorem C3_arbitration_deterministic_witness :
    priorityIdx Method.from_csv ≤ priorityIdx Method.pymupdf_extraction :=
  (((C3_arbitration_deterministic.1 tieScores Method.from_csv
        Method.pymupdf_extraction 3 3 (by decide) rfl rfl).2
      Method.from_csv 3 (by decide) rfl)
    Method.pymupdf_extraction 3 rfl).2 (le_refl 3)

/-- Assigning a method slot does not change the group keys. -/
theorem keysOf_setMethod (g : Groups) (k : String) (m : Method) (c : String) :
    keysOf (setMethod g k m c) = keysOf g := by
  unfold keysOf setMethod
  rw [List.map_map]
  congr 1
  funext e
  by_cases h : e.1 = k <;> simp [h]

/-- Key membership after the `setdefault` step. -/
theorem mem_keysOf_setdefault (g : Groups) (k k' : String) :
    k' ∈ keysOf (setdefaultKey g k) ↔ k' ∈ keysOf g ∨ k' = k := by
  unfold setdefaultKey
  by_cases h : g.any (fun e => e.1 = k) = true
  · rw [if_pos h]
    constructor
    · exact Or.inl
    · intro hc
      rcases hc with hc | rfl
      · exact hc
      · rcases List.any_eq_true.mp h with ⟨e, he, hek⟩
        have hk : e.1 = k' := of_decide_eq_true hek
        exact hk ▸ List.mem_map_of_mem Prod.fst he
  · rw [if_neg h]
    unfold keysOf
    simp

/-- Distinctness of the group keys survives the `setdefault` step. -/
theorem nodup_keysOf_setdefault (g : Groups) (k : String)
    (hn : (keysOf g).Nodup) : (keysOf (setdefaultKey g k)).Nodup := by
  unfold setdefaultKey
  by_cases h : g.any (fun e => e.1 = k) = true
  · rw [if_pos h]; exact hn
  · rw [if_neg h]
    unfold keysOf
    rw [List.map_append]
    refine List.Nodup.append hn (by simp) ?_
    intro a ha hb
    simp only [List.map_cons, List.map_nil, List.mem_singleton] at hb
    subst hb
    rcases List.mem_map.mp ha with ⟨e, he, hek⟩
    exact h (List.any_eq_true.mpr ⟨e, he, decide_eq_true hek⟩)

/-- Key membership after processing one file: either an old key or the key
extracted from the filename. -/
theorem mem_keysOf_addFile (g : Groups) (f : String × String) (k' : String) :
    k' ∈ keysOf (addFile g f) ↔
      k' ∈ keysOf g ∨ extract_group_key f.1 = some k' := by
  unfold addFile
  cases he : extract_group_key f.1 with
  | none => simp
  | some k =>
    cases hm : methodOf f.1 with
    | some m =>
      rw [keysOf_setMethod, mem_keysOf_setdefault]
      simp [eq_comm]
    | none =>
      rw [mem_keysOf_setdefault]
      simp [eq_comm]

/-- Distinctness of the group keys survives processing one file. -/
theorem nodup_keysOf_addFile (g : Groups) (f : String × String)
    (hn : (keysOf g).Nodup) : (keysOf (addFile g f)).Nodup := by
  unfold addFile
  cases he : extract_group_key f.1 with
  | none => exact hn
  | some k =>
    cases hm : methodOf f.1 with
    | some m =>
      rw [keysOf_setMethod]
      exact nodup_keysOf_setdefault g k hn
    | none => exact nodup_keysOf_setdefault g k hn

/-- Key membership after grouping a whole folder. -/
theorem mem_keysOf_foldl :
    ∀ (files : List (String × String)) (g : Groups) (k' : String),
      k' ∈ keysOf (files.foldl addFile g) ↔
        k' ∈ keysOf g ∨ ∃ f ∈ files, extract_group_key f.1 = some k' := by
  intro files
  induction files with
  | nil => intro g k'; simp
  | cons f rest ih =>
    intro g k'
    simp only [List.foldl_cons]
    rw [ih, mem_keysOf_addFile]
    simp only [List.mem_cons]
    constructor
    · rintro ((h | h) | ⟨f', hf', h⟩)
      · exact Or.inl h
      · exact Or.inr ⟨f, Or.inl rfl, h⟩
      · exact Or.inr ⟨f', Or.inr hf', h⟩
    · rintro (h | ⟨f', (rfl | hf'), h⟩)
      · exact Or.inl (Or.inl h)
      · exact Or.inl (Or.inr h)
      · exact Or.inr ⟨f', hf', h⟩

/-- Distinctness of the group keys after grouping a whole folder. -/
theorem nodup_keysOf_foldl :
    ∀ (files : List (String × String)) (g : Groups),
      (keysOf g).Nodup → (keysOf (files.foldl addFile g)).Nodup := by
  intro files
  induction files with
  | nil => intro g hn; exact hn
  | cons f rest ih =>
    intro g hn
    exact ih (addFile g f) (nodup_keysOf_addFile g f hn)

/-- C8: the batch comparison raises a hard failure exactly when no input
filename matches the recognized patterns; otherwise it succeeds and its
summary holds one row per document group: the row keys are distinct and
are exactly the keys extracted from the matching files. -/
theorem C8_empty_match_failure :
    ∀ files : List (String × String),
      ((∃ msg, compareFolder files = Except.error msg) ↔
        ∀ f ∈ files, extract_group_key f.1 = none) ∧
      ∀ rows, compareFolder files = Except.ok rows →
        (rows.map Prod.fst).Nodup ∧
        ∀ k, k ∈ rows.map Prod.fst ↔
          ∃ f ∈ files, extract_group_key f.1 = some k := by
  intro files
  have hkeys : ∀ k', k' ∈ keysOf (files.foldl addFile []) ↔
      ∃ f ∈ files, extract_group_key f.1 = some k' := by
    intro k'
    rw [mem_keysOf_foldl]
    simp [keysOf]
  have hnodup : (keysOf (files.foldl addFile [])).Nodup :=
    nodup_keysOf_foldl files [] (by simp [keysOf])
  constructor
  · constructor
    · rintro ⟨msg, hmsg⟩ f hf
      unfold compareFolder at hmsg
      by_cases hemp : (files.foldl addFile []).isEmpty = true
      · cases he : extract_group_key f.1 with
        | none => rfl
        | some k =>
          have hk : k ∈ keysOf (files.foldl addFile []) :=
            (hkeys k).mpr ⟨f, hf, he⟩
          rw [List.isEmpty_iff.mp hemp] at hk
          cases hk
      · rw [if_neg hemp] at hmsg
        cases hmsg
    · intro hall
      refine ⟨"No matching extraction or from_csv files in folder", ?_⟩
      unfold compareFolder
      rw [if_pos ?_]
      rw [List.isEmpty_iff]
      rw [← List.map_eq_nil_iff (f := Prod.fst)]
      rw [List.eq_nil_iff_forall_not_mem]
      intro k hk
      rcases (hkeys k).mp hk with ⟨f, hf, he⟩
      rw [hall f hf] at he
      cases he
  · intro rows hrows
    unfold compareFolder at hrows
    by_cases hemp : (files.foldl addFile []).isEmpty = true
    · rw [if_pos hemp] at hrows
      cases hrows
    · rw [if_neg hemp] at hrows
      injection hrows with hrows'
      have hmapfst : rows.map Prod.fst = keysOf (files.foldl addFile []) := by
        rw [← hrows', List.map_map]
        rfl
      constructor
      · rw [hmapfst]; exact hnodup
      · intro k
        rw [hmapfst]
        exact hkeys k

/-- Witness for C8 at a one-file folder: the run succeeds with a single
summary row whose key column is distinct. -/
theorem C8_empty_match_failure_witness :
    (([("2019-12-liberal_democrats", "from_csv")] :
        List (String × String)).map Prod.fst).Nodup :=
  ((C8_empty_match_failure c8WitnessFolder).2
    [("2019-12-liberal_democrats", "from_csv")] rfl).1

end Manifesto
